import Mathlib

/-!
Verification of the contact-map construction and alignment-driven projection
algorithm of mDeepFRI (src/mDeepFRI/bio_utils.py).

The two functions under study are

* `align_contact_map` (bio_utils.py, lines 233-340): a single left-to-right
  scan over a pair of gapped alignment strings producing a correspondence
  from target residue indices to query residue indices, followed by a
  translation of a sparse target contact list, and assembly of a dense
  symmetric query contact map; and
* `calculate_contact_map` (bio_utils.py, lines 179-211): pairwise-distance
  thresholding of residue coordinates.

Embedding conventions:

* Python strings are embedded as `List Char`; the gap symbol is `'-'`.
* Python dicts keyed by `target_index` are embedded as association lists to
  which new entries are prepended, with first-match lookup; this realizes
  the last-write-wins semantics of dict assignment.
* Python exceptions are embedded in `Except PyErr`: `IndexError` raised by
  `target_alignment[i]` when `i` exceeds the string length, `KeyError`
  raised by `target_to_query_indices[x]` for a missing key, and the
  out-of-range write detection of the numpy matrix assignment.
* Matrices are embedded as functions `Nat → Nat → Bool` together with their
  dimension; cells outside the dimension are `false`.
* Residue coordinates are embedded as rational triples; the contact
  predicate `distance < threshold` is rendered as
  `squaredDistance < threshold * threshold`, which is equivalent for
  non-negative thresholds.  `np.array` applied to an empty coordinate list
  yields a 1-dimensional array, which the pairwise-distance routine
  (`scipy.spatial.distance.pdist`) rejects with a `ValueError`; the
  embedding records this as an error on empty input.
-/

/-- Errors observable from the embedded Python code. -/
inductive PyErr where
  | indexError
  | keyError
  | oobWrite
  | valueError
  deriving Repr, DecidableEq

/-- The mutable state of the alignment scan in `align_contact_map`:
the accumulating sparse contact list `sparse_query_contact_map`, the two
ungapped counters `target_index` and `query_index`, and the dict
`target_to_query_indices` (newest entry first). -/
structure ScanState where
  sparse : List (Int × Int)
  targetIndex : Nat
  queryIndex : Nat
  corr : List (Nat × Int)
  deriving Repr, DecidableEq

/-- The initial scan state: empty contact list, both counters zero, empty
correspondence dict. -/
def initState : ScanState := ⟨[], 0, 0, []⟩

/-- First-match lookup in the association list embedding of
`target_to_query_indices`.  Entries are prepended, so first match is the
most recent assignment, exactly as in a Python dict. -/
def lookupIdx : List (Nat × Int) → Nat → Option Int
  | [], _ => none
  | (k, v) :: rest, n => if k = n then some v else lookupIdx rest n

/-- The generated contacts appended for one template-uncovered query residue
`q`, for `j` running over `1..n`: `(q + j, q)` then `(q - j, q)`, exactly
the append order of the Python loop `for j in range(1, generated_contacts + 1)`. -/
def genContactsAux (q : Nat) : Nat → List (Int × Int)
  | 0 => []
  | n + 1 => genContactsAux q n ++ [((q : Int) + (n + 1), (q : Int)), ((q : Int) - (n + 1), (q : Int))]

/-- Generated contacts for radius `r : Int`; Python `range(1, r + 1)` is
empty when `r < 1`, which `Int.toNat` realizes. -/
def genContacts (r : Int) (q : Nat) : List (Int × Int) :=
  genContactsAux q r.toNat

/-- One column of the scan of `align_contact_map` (bio_utils.py, lines
293-312).  `qc` is the query symbol at this column; `tc` is the target
symbol if the column is within the target string, `none` otherwise.  The
target symbol is only consulted when the query symbol is not a gap, exactly
as in the source; consulting a missing symbol is an `IndexError`. -/
def scanStep (r : Int) (st : ScanState) (qc : Char) (tc : Option Char) : Except PyErr ScanState :=
  if qc = '-' then
    .ok { st with corr := (st.targetIndex, -1) :: st.corr,
                  targetIndex := st.targetIndex + 1 }
  else
    match tc with
    | none => .error .indexError
    | some ch =>
      if ch = '-' then
        .ok { st with sparse := st.sparse ++ genContacts r st.queryIndex,
                      queryIndex := st.queryIndex + 1 }
      else
        .ok { st with corr := (st.targetIndex, (st.queryIndex : Int)) :: st.corr,
                      queryIndex := st.queryIndex + 1,
                      targetIndex := st.targetIndex + 1 }

/-- The full scan: `for i in range(len(query_alignment))`, consuming the
query string column by column; the target string is peeled in lockstep so
that its head at step `i` is `target_alignment[i]`. -/
def scanAux (r : Int) : List Char → List Char → ScanState → Except PyErr ScanState
  | [], _, st => .ok st
  | qc :: qs, ts, st =>
    match scanStep r st qc ts.head? with
    | .ok st1 => scanAux r qs ts.tail st1
    | .error e => .error e

/-- The translation pass (bio_utils.py, lines 314-319): each endpoint of
each target contact is looked up in `target_to_query_indices`; a missing
key is a `KeyError`. -/
def translateContacts (corr : List (Nat × Int)) : List (Nat × Nat) → Except PyErr (List (Int × Int))
  | [] => .ok []
  | p :: rest =>
    match lookupIdx corr p.1, lookupIdx corr p.2 with
    | some a, some b => (translateContacts corr rest).map (fun l => (a, b) :: l)
    | _, _ => .error .keyError

/-- The merged sparse contact list handed to matrix assembly: the generated
contacts collected during the scan followed by the translated contacts with
`-1` (unmapped) endpoints filtered out (bio_utils.py, lines 321-323). -/
def mergedContacts (st : ScanState) (tr : List (Int × Int)) : List (Int × Int) :=
  st.sparse ++ tr.filter (fun p => p.1 != -1 && p.2 != -1)

/-- Set one cell of the matrix to `true`. -/
def setCell (m : Nat → Nat → Bool) (a b : Nat) : Nat → Nat → Bool :=
  fun x y => if x = a ∧ y = b then true else m x y

/-- The symmetric pair of writes `output[i, j] = 1; output[j, i] = 1`. -/
def symWrite (m : Nat → Nat → Bool) (a b : Nat) : Nat → Nat → Bool :=
  setCell (setCell m a b) b a

/-- The zero matrix with the diagonal filled (bio_utils.py, lines 326-329). -/
def initDiag (N : Nat) : Nat → Nat → Bool :=
  fun a b => decide (a = b) && decide (a < N)

/-- The assembly loop (bio_utils.py, lines 331-338): contacts whose first
endpoint is negative or at least the dimension are skipped; for the rest
the matrix is written symmetrically.  A write whose second endpoint is out
of range would address an unintended numpy row; the invariant proofs below
show this never happens, and the embedding flags it as an error. -/
def fillContacts (N : Nat) : List (Int × Int) → (Nat → Nat → Bool) → Except PyErr (Nat → Nat → Bool)
  | [], m => .ok m
  | p :: rest, m =>
    if p.1 < 0 then fillContacts N rest m
    else if (N : Int) ≤ p.1 then fillContacts N rest m
    else if 0 ≤ p.2 ∧ p.2 < (N : Int) then fillContacts N rest (symWrite m p.1.toNat p.2.toNat)
    else .error .oobWrite

/-- `align_contact_map` (bio_utils.py, lines 233-340): scan, translate,
filter, assemble.  Returns the output dimension together with the dense
matrix. -/
def align_contact_map (q t : List Char) (c : List (Nat × Nat)) (r : Int) :
    Except PyErr (Nat × (Nat → Nat → Bool)) :=
  match scanAux r q t initState with
  | .error e => .error e
  | .ok st =>
    match translateContacts st.corr c with
    | .error e => .error e
    | .ok tr =>
      match fillContacts st.queryIndex (mergedContacts st tr) (initDiag st.queryIndex) with
      | .error e => .error e
      | .ok m => .ok (st.queryIndex, m)

/-- The dimension of the matrix returned by `align_contact_map`, when the
call returns one. -/
def alignDim (q t : List Char) (c : List (Nat × Nat)) (r : Int) : Option Nat :=
  match align_contact_map q t c r with
  | .ok (n, _) => some n
  | .error _ => none

/-- One cell of the matrix returned by `align_contact_map`, when the call
returns one. -/
def alignCell (q t : List Char) (c : List (Nat × Nat)) (r : Int) (i j : Nat) : Option Bool :=
  match align_contact_map q t c r with
  | .ok (_, m) => some (m i j)
  | .error _ => none

/-- The number of non-gap symbols in an alignment string. -/
def nonGapCount (q : List Char) : Nat :=
  (q.filter (fun ch => ch != '-')).length

/-- Output mode of `calculate_contact_map`. -/
inductive CMode where
  | matrix
  | sparse
  deriving Repr, DecidableEq

/-- A contact graph: dense matrix or sparse pair list. -/
inductive ContactMapResult where
  | dense (n : Nat) (m : Nat → Nat → Bool)
  | sparse (l : List (Nat × Nat))

/-- Squared Euclidean distance of two coordinate triples. -/
def sqDist (p q : ℚ × ℚ × ℚ) : ℚ :=
  (p.1 - q.1) ^ 2 + (p.2.1 - q.2.1) ^ 2 + (p.2.2 - q.2.2) ^ 2

/-- Row-major enumeration of the true cells of an `n × n` matrix, the
embedding of `np.argwhere(cmap == 1)`. -/
def argwhereTrue (n : Nat) (m : Nat → Nat → Bool) : List (Nat × Nat) :=
  ((List.range n).map (fun i => ((List.range n).filter (fun j => m i j)).map (fun j => (i, j)))).flatten

/-- `calculate_contact_map` (bio_utils.py, lines 179-211) over the residue
coordinates extracted from the parsed structure (parsing itself is an
external collaborator).  The residue list is truncated to `maxLen`; the
contact predicate is strict `distance < threshold`.  On an empty
coordinate list, `np.array` yields a 1-dimensional array and
`scipy.spatial.distance.pdist` raises `ValueError` (a 2-dimensional array
must be passed), so the call errors before any matrix is formed. -/
def calculate_contact_map (coords : List (ℚ × ℚ × ℚ)) (maxLen : Nat) (threshold : ℚ)
    (mode : CMode) : Except PyErr ContactMapResult :=
  let cs := coords.take maxLen
  if cs.isEmpty then .error .valueError
  else
    let n := cs.length
    let dm : Nat → Nat → Bool := fun i j =>
      match cs.get? i, cs.get? j with
      | some p, some q => decide (sqDist p q < threshold * threshold)
      | _, _ => false
    match mode with
    | .matrix => .ok (.dense n dm)
    | .sparse => .ok (.sparse (argwhereTrue n dm))

/-! ## Basic lemmas about the assembly stage -/

theorem symWrite_eq_true_iff (m : Nat → Nat → Bool) (a b x y : Nat) :
    symWrite m a b x y = true ↔ (x = b ∧ y = a) ∨ (x = a ∧ y = b) ∨ m x y = true := by
  unfold symWrite setCell
  by_cases h1 : x = b ∧ y = a
  · simp [h1]
  · by_cases h2 : x = a ∧ y = b
    · simp [h1, h2]
    · simp [h1, h2]

theorem fillContacts_skip (N : Nat) (p : Int × Int) (rest : List (Int × Int))
    (m : Nat → Nat → Bool) (h : p.1 < 0 ∨ (N : Int) ≤ p.1) :
    fillContacts N (p :: rest) m = fillContacts N rest m := by
  rcases h with h | h
  · simp [fillContacts, h]
  · by_cases h0 : p.1 < 0
    · simp [fillContacts, h0]
    · simp [fillContacts, h0, h]

theorem fillContacts_write (N : Nat) (p : Int × Int) (rest : List (Int × Int))
    (m : Nat → Nat → Bool) (h1 : ¬ p.1 < 0) (h2 : ¬ (N : Int) ≤ p.1)
    (h3 : 0 ≤ p.2 ∧ p.2 < (N : Int)) :
    fillContacts N (p :: rest) m = fillContacts N rest (symWrite m p.1.toNat p.2.toNat) := by
  simp [fillContacts, h1, h2, h3]

theorem fillContacts_isOk (N : Nat) (l : List (Int × Int)) :
    ∀ m : Nat → Nat → Bool, (∀ p ∈ l, 0 ≤ p.2 ∧ p.2 < (N : Int)) →
    ∃ m2, fillContacts N l m = .ok m2 := by
  induction l with
  | nil => exact fun m _ => ⟨m, rfl⟩
  | cons p rest ih =>
    intro m hp
    have hhead := hp p (List.mem_cons_self _ _)
    have hrest : ∀ x ∈ rest, 0 ≤ x.2 ∧ x.2 < (N : Int) :=
      fun x hx => hp x (List.mem_cons_of_mem _ hx)
    by_cases h1 : p.1 < 0
    · rw [fillContacts_skip N p rest m (Or.inl h1)]; exact ih m hrest
    · by_cases h2 : (N : Int) ≤ p.1
      · rw [fillContacts_skip N p rest m (Or.inr h2)]; exact ih m hrest
      · rw [fillContacts_write N p rest m h1 h2 hhead]; exact ih _ hrest

theorem fillContacts_char (N : Nat) (l : List (Int × Int)) :
    ∀ (m m2 : Nat → Nat → Bool), fillContacts N l m = .ok m2 → ∀ a b : Nat,
    (m2 a b = true ↔ m a b = true ∨ ∃ p ∈ l, (0 ≤ p.1 ∧ p.1 < (N : Int)) ∧
      ((p.1 = (a : Int) ∧ p.2 = (b : Int)) ∨ (p.1 = (b : Int) ∧ p.2 = (a : Int)))) := by
  induction l with
  | nil =>
    intro m m2 h a b
    simp only [fillContacts, Except.ok.injEq] at h
    subst h
    simp
  | cons p rest ih =>
    intro m m2 h a b
    by_cases h1 : p.1 < 0
    · rw [fillContacts_skip N p rest m (Or.inl h1)] at h
      rw [ih m m2 h a b]
      constructor
      · rintro (hm | ⟨x, hx, hcond⟩)
        · exact Or.inl hm
        · exact Or.inr ⟨x, List.mem_cons_of_mem _ hx, hcond⟩
      · rintro (hm | ⟨x, hx, hrange, hcond⟩)
        · exact Or.inl hm
        · rcases List.mem_cons.mp hx with rfl | hx
          · exact absurd hrange.1 (by omega)
          · exact Or.inr ⟨x, hx, hrange, hcond⟩
    · by_cases h2 : (N : Int) ≤ p.1
      · rw [fillContacts_skip N p rest m (Or.inr h2)] at h
        rw [ih m m2 h a b]
        constructor
        · rintro (hm | ⟨x, hx, hcond⟩)
          · exact Or.inl hm
          · exact Or.inr ⟨x, List.mem_cons_of_mem _ hx, hcond⟩
        · rintro (hm | ⟨x, hx, hrange, hcond⟩)
          · exact Or.inl hm
          · rcases List.mem_cons.mp hx with rfl | hx
            · exact absurd hrange.2 (by omega)
            · exact Or.inr ⟨x, hx, hrange, hcond⟩
      · by_cases h3 : 0 ≤ p.2 ∧ p.2 < (N : Int)
        · rw [fillContacts_write N p rest m h1 h2 h3] at h
          rw [ih _ m2 h a b, symWrite_eq_true_iff]
          constructor
          · rintro ((⟨rfl, rfl⟩ | ⟨rfl, rfl⟩ | hm) | ⟨x, hx, hcond⟩)
            · exact Or.inr ⟨p, List.mem_cons_self _ _, ⟨by omega, by omega⟩,
                Or.inr ⟨by omega, by omega⟩⟩
            · exact Or.inr ⟨p, List.mem_cons_self _ _, ⟨by omega, by omega⟩,
                Or.inl ⟨by omega, by omega⟩⟩
            · exact Or.inl hm
            · exact Or.inr ⟨x, List.mem_cons_of_mem _ hx, hcond⟩
          · rintro (hm | ⟨x, hx, hrange, hcond⟩)
            · exact Or.inl (Or.inr (Or.inr hm))
            · rcases List.mem_cons.mp hx with rfl | hx
              · rcases hcond with ⟨he1, he2⟩ | ⟨he1, he2⟩
                · exact Or.inl (Or.inr (Or.inl ⟨by omega, by omega⟩))
                · exact Or.inl (Or.inl ⟨by omega, by omega⟩)
              · exact Or.inr ⟨x, hx, hrange, hcond⟩
        · rw [fillContacts] at h
          rw [if_neg h1, if_neg h2, if_neg h3] at h
          cases h

theorem initDiag_true_iff (N a b : Nat) : initDiag N a b = true ↔ a = b ∧ a < N := by
  simp [initDiag]

/-! ## Lemmas about generated contacts -/

theorem genContactsAux_snd (q : Nat) : ∀ n, ∀ p ∈ genContactsAux q n, p.2 = (q : Int) := by
  intro n
  induction n with
  | zero => simp [genContactsAux]
  | succ k ih =>
    intro p hp
    unfold genContactsAux at hp
    rcases List.mem_append.mp hp with hp | hp
    · exact ih p hp
    · rcases List.mem_cons.mp hp with rfl | hp
      · rfl
      · rw [List.mem_singleton.mp hp]

theorem genContactsAux_mono (q : Nat) : ∀ n n2 : Nat, n ≤ n2 →
    ∀ p ∈ genContactsAux q n, p ∈ genContactsAux q n2 := by
  intro n n2
  induction n2 with
  | zero =>
    intro h p hp
    have hn : n = 0 := Nat.le_zero.mp h
    subst hn
    exact hp
  | succ k ih =>
    intro h p hp
    by_cases h2 : n = k + 1
    · subst h2; exact hp
    · have h3 : n ≤ k := by omega
      unfold genContactsAux
      exact List.mem_append_left _ (ih h3 p hp)

theorem genContactsAux_mem (q n j : Nat) (h1 : 1 ≤ j) (h2 : j ≤ n) :
    ((q : Int) + (j : Int), (q : Int)) ∈ genContactsAux q n ∧
    ((q : Int) - (j : Int), (q : Int)) ∈ genContactsAux q n := by
  obtain ⟨k, rfl⟩ : ∃ k, j = k + 1 := ⟨j - 1, by omega⟩
  have hj : ((k + 1 : Nat) : Int) = (k : Int) + 1 := by push_cast; ring
  rw [hj]
  constructor
  · refine genContactsAux_mono q (k + 1) n h2 _ ?_
    unfold genContactsAux
    exact List.mem_append_right _ (List.mem_cons_self _ _)
  · refine genContactsAux_mono q (k + 1) n h2 _ ?_
    unfold genContactsAux
    exact List.mem_append_right _ (List.mem_cons_of_mem _ (List.mem_cons_self _ _))

/-! ## Branch equations for the scan -/

theorem scanStep_gap (r : Int) (st : ScanState) (tc : Option Char) :
    scanStep r st '-' tc =
      .ok { st with corr := (st.targetIndex, -1) :: st.corr,
                    targetIndex := st.targetIndex + 1 } := by
  simp [scanStep]

theorem scanStep_none (r : Int) (st : ScanState) (qc : Char) (h : qc ≠ '-') :
    scanStep r st qc none = .error .indexError := by
  simp [scanStep, h]

theorem scanStep_tgap (r : Int) (st : ScanState) (qc : Char) (h : qc ≠ '-') :
    scanStep r st qc (some '-') =
      .ok { st with sparse := st.sparse ++ genContacts r st.queryIndex,
                    queryIndex := st.queryIndex + 1 } := by
  simp [scanStep, h]

theorem scanStep_both (r : Int) (st : ScanState) (qc ch : Char) (hq : qc ≠ '-') (hc : ch ≠ '-') :
    scanStep r st qc (some ch) =
      .ok { st with corr := (st.targetIndex, (st.queryIndex : Int)) :: st.corr,
                    queryIndex := st.queryIndex + 1,
                    targetIndex := st.targetIndex + 1 } := by
  simp [scanStep, hq, hc]

theorem scanAux_nil (r : Int) (ts : List Char) (st : ScanState) :
    scanAux r [] ts st = .ok st := rfl

theorem scanAux_cons (r : Int) (qc : Char) (qs ts : List Char) (st : ScanState) :
    scanAux r (qc :: qs) ts st =
      match scanStep r st qc ts.head? with
      | .ok st1 => scanAux r qs ts.tail st1
      | .error e => .error e := rfl

/-! ## Scan invariants -/

/-- Invariant of the scan state: every collected sparse contact has its
second endpoint (the generated-contact center) in `[0, queryIndex)`, and
every correspondence value is either the `-1` sentinel or in
`[0, queryIndex)`. -/
def SInv (st : ScanState) : Prop :=
  (∀ p ∈ st.sparse, 0 ≤ p.2 ∧ p.2 < (st.queryIndex : Int)) ∧
  (∀ kv ∈ st.corr, kv.2 = -1 ∨ (0 ≤ kv.2 ∧ kv.2 < (st.queryIndex : Int)))

theorem scanStep_SInv (r : Int) (st st1 : ScanState) (qc : Char) (tc : Option Char)
    (h : scanStep r st qc tc = .ok st1) (hinv : SInv st) : SInv st1 := by
  obtain ⟨hs, hc⟩ := hinv
  by_cases hq : qc = '-'
  · subst hq
    rw [scanStep_gap] at h
    injection h with h
    subst h
    unfold SInv
    dsimp only
    refine ⟨hs, ?_⟩
    intro kv hkv
    rcases List.mem_cons.mp hkv with rfl | hkv
    · exact Or.inl rfl
    · exact hc kv hkv
  · cases tc with
    | none => rw [scanStep_none r st qc hq] at h; cases h
    | some ch =>
      by_cases hch : ch = '-'
      · subst hch
        rw [scanStep_tgap r st qc hq] at h
        injection h with h
        subst h
        unfold SInv
        dsimp only
        constructor
        · intro p hp
          rcases List.mem_append.mp hp with hp | hp
          · have hb := hs p hp
            refine ⟨hb.1, ?_⟩
            have : (st.queryIndex : Int) ≤ ((st.queryIndex + 1 : Nat) : Int) := by
              push_cast; omega
            omega
          · unfold genContacts at hp
            have hb := genContactsAux_snd st.queryIndex r.toNat p hp
            rw [hb]
            constructor
            · exact Int.ofNat_nonneg _
            · push_cast; omega
        · intro kv hkv
          rcases hc kv hkv with h1 | h1
          · exact Or.inl h1
          · refine Or.inr ⟨h1.1, ?_⟩
            have := h1.2
            push_cast
            omega
      · rw [scanStep_both r st qc ch hq hch] at h
        injection h with h
        subst h
        unfold SInv
        dsimp only
        constructor
        · intro p hp
          have hb := hs p hp
          refine ⟨hb.1, ?_⟩
          have := hb.2
          push_cast
          omega
        · intro kv hkv
          rcases List.mem_cons.mp hkv with rfl | hkv
          · refine Or.inr ⟨Int.ofNat_nonneg _, ?_⟩
            push_cast; omega
          · rcases hc kv hkv with h1 | h1
            · exact Or.inl h1
            · refine Or.inr ⟨h1.1, ?_⟩
              have := h1.2
              push_cast
              omega

theorem scanAux_SInv (r : Int) : ∀ (q t : List Char) (st st2 : ScanState),
    scanAux r q t st = .ok st2 → SInv st → SInv st2 := by
  intro q
  induction q with
  | nil =>
    intro t st st2 h hinv
    rw [scanAux_nil] at h
    injection h with h
    subst h
    exact hinv
  | cons qc qs ih =>
    intro t st st2 h hinv
    rw [scanAux_cons] at h
    cases hstep : scanStep r st qc t.head? with
    | ok st1 =>
      simp only [hstep] at h
      exact ih t.tail st1 st2 h (scanStep_SInv r st st1 qc t.head? hstep hinv)
    | error e =>
      simp only [hstep] at h
      cases h

theorem SInv_initState : SInv initState := by
  constructor
  · intro p hp; cases hp
  · intro kv hkv; cases hkv

/-! ## Query-index counting -/

theorem nonGapCount_nil : nonGapCount [] = 0 := rfl

theorem nonGapCount_cons (qc : Char) (qs : List Char) :
    nonGapCount (qc :: qs) = (if qc = '-' then 0 else 1) + nonGapCount qs := by
  by_cases h : qc = '-'
  · simp [nonGapCount, List.filter_cons, h]
  · simp [nonGapCount, List.filter_cons, h, Nat.add_comm]

theorem scanStep_queryIndex (r : Int) (st st1 : ScanState) (qc : Char) (tc : Option Char)
    (h : scanStep r st qc tc = .ok st1) :
    st1.queryIndex = st.queryIndex + (if qc = '-' then 0 else 1) := by
  by_cases hq : qc = '-'
  · subst hq
    rw [scanStep_gap] at h
    injection h with h
    subst h
    simp
  · cases tc with
    | none => rw [scanStep_none r st qc hq] at h; cases h
    | some ch =>
      by_cases hch : ch = '-'
      · subst hch
        rw [scanStep_tgap r st qc hq] at h
        injection h with h
        subst h
        simp [hq]
      · rw [scanStep_both r st qc ch hq hch] at h
        injection h with h
        subst h
        simp [hq]

theorem scanAux_count (r : Int) : ∀ (q t : List Char) (st st2 : ScanState),
    scanAux r q t st = .ok st2 → st2.queryIndex = st.queryIndex + nonGapCount q := by
  intro q
  induction q with
  | nil =>
    intro t st st2 h
    rw [scanAux_nil] at h
    injection h with h
    subst h
    simp [nonGapCount_nil]
  | cons qc qs ih =>
    intro t st st2 h
    rw [scanAux_cons] at h
    cases hstep : scanStep r st qc t.head? with
    | ok st1 =>
      simp only [hstep] at h
      have h1 := ih t.tail st1 st2 h
      have h2 := scanStep_queryIndex r st st1 qc t.head? hstep
      rw [h1, h2, nonGapCount_cons]
      omega
    | error e =>
      simp only [hstep] at h
      cases h

/-! ## Lookup and translation lemmas -/

theorem lookupIdx_mem : ∀ (l : List (Nat × Int)) (k : Nat) (v : Int),
    lookupIdx l k = some v → (k, v) ∈ l := by
  intro l
  induction l with
  | nil => intro k v h; cases h
  | cons kv rest ih =>
    intro k v h
    rw [lookupIdx] at h
    by_cases hk : kv.1 = k
    · rw [if_pos hk] at h
      injection h with h
      subst h
      subst hk
      exact List.mem_cons_self _ _
    · rw [if_neg hk] at h
      exact List.mem_cons_of_mem _ (ih k v h)

theorem translateContacts_nil (corr : List (Nat × Int)) :
    translateContacts corr [] = .ok [] := rfl

theorem translateContacts_mem (corr : List (Nat × Int)) :
    ∀ (c : List (Nat × Nat)) (tr : List (Int × Int)), translateContacts corr c = .ok tr →
    ∀ x ∈ tr, (∃ k, lookupIdx corr k = some x.1) ∧ (∃ k2, lookupIdx corr k2 = some x.2) := by
  intro c
  induction c with
  | nil =>
    intro tr h x hx
    rw [translateContacts_nil] at h
    injection h with h
    subst h
    cases hx
  | cons p rest ih =>
    intro tr h x hx
    rw [translateContacts] at h
    cases h1 : lookupIdx corr p.1 with
    | none => rw [h1] at h; cases h
    | some a =>
      cases h2 : lookupIdx corr p.2 with
      | none => rw [h1, h2] at h; cases h
      | some b =>
        rw [h1, h2] at h
        cases hrec : translateContacts corr rest with
        | error e => rw [hrec] at h; cases h
        | ok l =>
          rw [hrec] at h
          simp only [Except.map, Except.ok.injEq] at h
          subst h
          rcases List.mem_cons.mp hx with rfl | hx
          · exact ⟨⟨p.1, h1⟩, ⟨p.2, h2⟩⟩
          · exact ih l hrec x hx

theorem translateContacts_isOk (corr : List (Nat × Int)) :
    ∀ c : List (Nat × Nat),
    (∀ p ∈ c, (lookupIdx corr p.1).isSome ∧ (lookupIdx corr p.2).isSome) →
    ∃ tr, translateContacts corr c = .ok tr := by
  intro c
  induction c with
  | nil => intro _; exact ⟨[], rfl⟩
  | cons p rest ih =>
    intro h
    have hp := h p (List.mem_cons_self _ _)
    obtain ⟨a, ha⟩ := Option.isSome_iff_exists.mp hp.1
    obtain ⟨b, hb⟩ := Option.isSome_iff_exists.mp hp.2
    obtain ⟨tr, htr⟩ := ih (fun x hx => h x (List.mem_cons_of_mem _ hx))
    refine ⟨(a, b) :: tr, ?_⟩
    rw [translateContacts, ha, hb, htr]
    rfl

theorem translateContacts_err (corr : List (Nat × Int)) :
    ∀ c : List (Nat × Nat),
    (∃ p ∈ c, lookupIdx corr p.1 = none ∨ lookupIdx corr p.2 = none) →
    translateContacts corr c = .error .keyError := by
  intro c
  induction c with
  | nil => rintro ⟨p, hp, _⟩; cases hp
  | cons p rest ih =>
    rintro ⟨x, hx, hbad⟩
    rcases List.mem_cons.mp hx with rfl | hx
    · rw [translateContacts]
      rcases hbad with hb | hb
      · rw [hb]
      · rw [hb]
        cases lookupIdx corr x.1 <;> rfl
    · rw [translateContacts]
      cases h1 : lookupIdx corr p.1 with
      | none => rfl
      | some a =>
        cases h2 : lookupIdx corr p.2 with
        | none => rfl
        | some b =>
          rw [ih ⟨x, hx, hbad⟩]
          rfl

/-! ## Composition lemmas for the full projection -/

theorem mergedContacts_snd_bound (q t : List Char) (c : List (Nat × Nat)) (r : Int)
    (st : ScanState) (tr : List (Int × Int))
    (hs : scanAux r q t initState = .ok st) (ht : translateContacts st.corr c = .ok tr) :
    ∀ p ∈ mergedContacts st tr, 0 ≤ p.2 ∧ p.2 < (st.queryIndex : Int) := by
  have hinv := scanAux_SInv r q t initState st hs SInv_initState
  intro p hp
  rcases List.mem_append.mp hp with hp | hp
  · exact hinv.1 p hp
  · obtain ⟨hmem, hpred⟩ := List.mem_filter.mp hp
    obtain ⟨_, k2, hk2⟩ := translateContacts_mem st.corr c tr ht p hmem
    have hin := lookupIdx_mem st.corr k2 p.2 hk2
    rcases hinv.2 (k2, p.2) hin with hneg | hb
    · exfalso
      simp only [Bool.and_eq_true, bne_iff_ne] at hpred
      exact hpred.2 hneg
    · exact hb

theorem align_of_stages (q t : List Char) (c : List (Nat × Nat)) (r : Int)
    (st : ScanState) (tr : List (Int × Int)) (m : Nat → Nat → Bool)
    (hs : scanAux r q t initState = .ok st) (ht : translateContacts st.corr c = .ok tr)
    (hf : fillContacts st.queryIndex (mergedContacts st tr) (initDiag st.queryIndex) = .ok m) :
    align_contact_map q t c r = .ok (st.queryIndex, m) := by
  unfold align_contact_map
  simp only [hs, ht, hf]

theorem align_success (q t : List Char) (c : List (Nat × Nat)) (r : Int)
    (st : ScanState) (tr : List (Int × Int))
    (hs : scanAux r q t initState = .ok st) (ht : translateContacts st.corr c = .ok tr) :
    ∃ m, align_contact_map q t c r = .ok (st.queryIndex, m) ∧
      fillContacts st.queryIndex (mergedContacts st tr) (initDiag st.queryIndex) = .ok m := by
  obtain ⟨m, hm⟩ := fillContacts_isOk st.queryIndex (mergedContacts st tr) (initDiag st.queryIndex)
    (mergedContacts_snd_bound q t c r st tr hs ht)
  exact ⟨m, align_of_stages q t c r st tr m hs ht hm, hm⟩

theorem align_eq_ok (q t : List Char) (c : List (Nat × Nat)) (r : Int)
    (N : Nat) (m : Nat → Nat → Bool)
    (h : align_contact_map q t c r = .ok (N, m)) :
    ∃ st tr, scanAux r q t initState = .ok st ∧ translateContacts st.corr c = .ok tr ∧
      fillContacts st.queryIndex (mergedContacts st tr) (initDiag st.queryIndex) = .ok m ∧
      N = st.queryIndex := by
  unfold align_contact_map at h
  cases hs : scanAux r q t initState with
  | error e => simp only [hs] at h; cases h
  | ok st =>
    simp only [hs] at h
    cases ht : translateContacts st.corr c with
    | error e => simp only [ht] at h; cases h
    | ok tr =>
      simp only [ht] at h
      cases hf : fillContacts st.queryIndex (mergedContacts st tr) (initDiag st.queryIndex) with
      | error e => simp only [hf] at h; cases h
      | ok m2 =>
        simp only [hf, Except.ok.injEq, Prod.mk.injEq] at h
        obtain ⟨h1, h2⟩ := h
        subst h1
        subst h2
        exact ⟨st, tr, rfl, ht, hf, rfl⟩

/-! ## Behavior of the scan when the target string is exhausted -/

theorem scanStep_isOk (r : Int) (st : ScanState) (qc tc : Char) :
    ∃ st1, scanStep r st qc (some tc) = .ok st1 := by
  by_cases hq : qc = '-'
  · subst hq; exact ⟨_, scanStep_gap r st (some tc)⟩
  · by_cases hc : tc = '-'
    · subst hc; exact ⟨_, scanStep_tgap r st qc hq⟩
    · exact ⟨_, scanStep_both r st qc tc hq hc⟩

theorem scanStep_error_eq (r : Int) (st : ScanState) (qc : Char) (tc : Option Char) (e : PyErr)
    (h : scanStep r st qc tc = .error e) : e = .indexError := by
  by_cases hq : qc = '-'
  · subst hq; rw [scanStep_gap] at h; cases h
  · cases tc with
    | none =>
      rw [scanStep_none r st qc hq] at h
      injection h with h
      exact h.symm
    | some ch =>
      by_cases hc : ch = '-'
      · subst hc; rw [scanStep_tgap r st qc hq] at h; cases h
      · rw [scanStep_both r st qc ch hq hc] at h; cases h

theorem scanAux_oob_err (r : Int) : ∀ (q t : List Char) (st : ScanState) (i : Nat) (ch : Char),
    q.get? i = some ch → ch ≠ '-' → t.length ≤ i →
    scanAux r q t st = .error .indexError := by
  intro q
  induction q with
  | nil => intro t st i ch hget; cases hget
  | cons qc qs ih =>
    intro t st i ch hget hch hlen
    cases i with
    | zero =>
      have hqc : qc = ch := by
        simp only [List.get?_cons_zero, Option.some.injEq] at hget
        exact hget
      subst hqc
      have ht : t = [] := List.eq_nil_of_length_eq_zero (Nat.le_zero.mp hlen)
      subst ht
      rw [scanAux_cons]
      simp only [List.head?_nil, scanStep_none r st qc hch]
    | succ i2 =>
      rw [scanAux_cons]
      cases hstep : scanStep r st qc t.head? with
      | error e =>
        have he := scanStep_error_eq r st qc t.head? e hstep
        subst he
        simp only [hstep]
      | ok st1 =>
        have hget2 : qs.get? i2 = some ch := by
          simpa using hget
        have hlen2 : t.tail.length ≤ i2 := by
          rw [List.length_tail]
          omega
        simp only [ih t.tail st1 i2 ch hget2 hch hlen2]

theorem scanAux_isOk (r : Int) : ∀ (q t : List Char) (st : ScanState),
    (∀ i ch, q.get? i = some ch → ch ≠ '-' → i < t.length) →
    ∃ st2, scanAux r q t st = .ok st2 := by
  intro q
  induction q with
  | nil => intro t st _; exact ⟨st, rfl⟩
  | cons qc qs ih =>
    intro t st h
    have htl : ∀ i ch, qs.get? i = some ch → ch ≠ '-' → i < t.tail.length := by
      intro i ch hget hch
      have := h (i + 1) ch (by simpa using hget) hch
      rw [List.length_tail]
      omega
    by_cases hq : qc = '-'
    · subst hq
      rw [scanAux_cons]
      simp only [scanStep_gap]
      exact ih t.tail _ htl
    · have h0 : 0 < t.length := h 0 qc (by simp) hq
      cases t with
      | nil => simp at h0
      | cons tc ts =>
        rw [scanAux_cons]
        obtain ⟨st1, hst1⟩ := scanStep_isOk r st qc tc
        simp only [List.head?_cons, hst1, List.tail_cons]
        exact ih ts st1 htl

/-! ## The scan on an identity alignment without gaps -/

theorem lookupIdx_cons (k : Nat) (v : Int) (rest : List (Nat × Int)) (n : Nat) :
    lookupIdx ((k, v) :: rest) n = if k = n then some v else lookupIdx rest n := rfl

theorem scanAux_id (r : Int) : ∀ (q : List Char), (∀ ch ∈ q, ch ≠ '-') → ∀ st : ScanState,
    ∃ st2, scanAux r q q st = .ok st2 ∧ st2.sparse = st.sparse ∧
      st2.queryIndex = st.queryIndex + q.length ∧
      ∀ k, lookupIdx st2.corr k =
        if st.targetIndex ≤ k ∧ k < st.targetIndex + q.length
        then some ((k - st.targetIndex + st.queryIndex : Nat) : Int)
        else lookupIdx st.corr k := by
  intro q
  induction q with
  | nil =>
    intro _ st
    refine ⟨st, scanAux_nil r [] st, rfl, by simp, ?_⟩
    intro k
    rw [if_neg (by simp only [List.length_nil]; omega)]
  | cons ch qs ih =>
    intro hng st
    have hch : ch ≠ '-' := hng ch (List.mem_cons_self _ _)
    have hng2 : ∀ x ∈ qs, x ≠ '-' := fun x hx => hng x (List.mem_cons_of_mem _ hx)
    obtain ⟨st2, hrun, hsp, hqi, hlk⟩ := ih hng2
      { st with corr := (st.targetIndex, (st.queryIndex : Int)) :: st.corr,
                queryIndex := st.queryIndex + 1,
                targetIndex := st.targetIndex + 1 }
    refine ⟨st2, ?_, ?_, ?_, ?_⟩
    · rw [scanAux_cons]
      simp only [List.head?_cons, scanStep_both r st ch ch hch hch, List.tail_cons]
      exact hrun
    · exact hsp
    · rw [hqi]; dsimp only; simp [List.length_cons]; omega
    · intro k
      rw [hlk k]
      dsimp only
      by_cases hk1 : st.targetIndex + 1 ≤ k ∧ k < st.targetIndex + 1 + qs.length
      · rw [if_pos hk1, if_pos (by simp only [List.length_cons]; omega)]
        have : k - (st.targetIndex + 1) + (st.queryIndex + 1) = k - st.targetIndex + st.queryIndex := by
          omega
        rw [this]
      · rw [if_neg hk1, lookupIdx_cons]
        by_cases hk2 : st.targetIndex = k
        · rw [if_pos hk2, if_pos (by simp only [List.length_cons]; omega)]
          have : k - st.targetIndex + st.queryIndex = st.queryIndex := by omega
          rw [this]
        · rw [if_neg hk2, if_neg (by simp only [List.length_cons]; omega)]

/-! ## Translation when every lookup succeeds with the identity value -/

theorem translateContacts_id (corr : List (Nat × Int)) :
    ∀ c : List (Nat × Nat),
    (∀ p ∈ c, lookupIdx corr p.1 = some (p.1 : Int) ∧ lookupIdx corr p.2 = some (p.2 : Int)) →
    translateContacts corr c = .ok (c.map (fun p => ((p.1 : Int), (p.2 : Int)))) := by
  intro c
  induction c with
  | nil => intro _; rfl
  | cons p rest ih =>
    intro h
    have hp := h p (List.mem_cons_self _ _)
    rw [translateContacts, hp.1, hp.2, ih (fun x hx => h x (List.mem_cons_of_mem _ hx))]
    rfl

/-! ## Radius monotonicity machinery -/

/-- Relation between the scan states of two runs that differ only in the
generated-contact radius: all components agree except that the sparse
contact list of the larger-radius run contains that of the smaller. -/
def SRel (st st2 : ScanState) : Prop :=
  (∀ p ∈ st.sparse, p ∈ st2.sparse) ∧ st2.targetIndex = st.targetIndex ∧
    st2.queryIndex = st.queryIndex ∧ st2.corr = st.corr

theorem genContacts_mono (r r2 : Int) (hr : r ≤ r2) (n : Nat) :
    ∀ p ∈ genContacts r n, p ∈ genContacts r2 n := by
  intro p hp
  unfold genContacts at hp ⊢
  exact genContactsAux_mono n r.toNat r2.toNat (Int.toNat_le_toNat hr) p hp

theorem scanStep_mono (r r2 : Int) (hr : r ≤ r2) (st st2 : ScanState) (hrel : SRel st st2)
    (qc : Char) (tc : Option Char) :
    (∃ u u2, scanStep r st qc tc = .ok u ∧ scanStep r2 st2 qc tc = .ok u2 ∧ SRel u u2) ∨
    (∃ e, scanStep r st qc tc = .error e ∧ scanStep r2 st2 qc tc = .error e) := by
  obtain ⟨hsp, hti, hqi, hco⟩ := hrel
  by_cases hq : qc = '-'
  · subst hq
    left
    refine ⟨_, _, scanStep_gap r st tc, scanStep_gap r2 st2 tc, ?_⟩
    refine ⟨hsp, by dsimp only; omega, by dsimp only; omega, ?_⟩
    dsimp only
    rw [hco, hti]
  · cases tc with
    | none =>
      right
      exact ⟨.indexError, scanStep_none r st qc hq, scanStep_none r2 st2 qc hq⟩
    | some ch =>
      by_cases hc : ch = '-'
      · subst hc
        left
        refine ⟨_, _, scanStep_tgap r st qc hq, scanStep_tgap r2 st2 qc hq, ?_⟩
        refine ⟨?_, by dsimp only; omega, by dsimp only; omega, by dsimp only; rw [hco]⟩
        dsimp only
        intro p hp
        rcases List.mem_append.mp hp with hp | hp
        · exact List.mem_append_left _ (hsp p hp)
        · rw [hqi]
          exact List.mem_append_right _ (genContacts_mono r r2 hr st.queryIndex p hp)
      · left
        refine ⟨_, _, scanStep_both r st qc ch hq hc, scanStep_both r2 st2 qc ch hq hc, ?_⟩
        refine ⟨hsp, by dsimp only; omega, by dsimp only; omega, ?_⟩
        dsimp only
        rw [hco, hti, hqi]

theorem scanAux_mono (r r2 : Int) (hr : r ≤ r2) :
    ∀ (q t : List Char) (st st2 : ScanState), SRel st st2 →
    (∃ u u2, scanAux r q t st = .ok u ∧ scanAux r2 q t st2 = .ok u2 ∧ SRel u u2) ∨
    (∃ e, scanAux r q t st = .error e ∧ scanAux r2 q t st2 = .error e) := by
  intro q
  induction q with
  | nil =>
    intro t st st2 hrel
    left
    exact ⟨st, st2, scanAux_nil r t st, scanAux_nil r2 t st2, hrel⟩
  | cons qc qs ih =>
    intro t st st2 hrel
    rcases scanStep_mono r r2 hr st st2 hrel qc t.head? with ⟨u, u2, h1, h2, hrel2⟩ | ⟨e, h1, h2⟩
    · rw [scanAux_cons, scanAux_cons]
      simp only [h1, h2]
      exact ih t.tail u u2 hrel2
    · right
      rw [scanAux_cons, scanAux_cons]
      simp only [h1, h2]
      exact ⟨e, rfl, rfl⟩

/-! ## Claim theorems -/

/-- Claim C1, counterexample: with query alignment "A-" (length 2) and
target alignment "A" (length 1) the lengths differ, yet `align_contact_map`
signals no error at all and returns a contact map, so the claimed
`AlignmentLengthMismatch` precondition check does not exist in the code. -/
theorem align_length_mismatch_cex :
    (['A', '-'] : List Char).length ≠ (['A'] : List Char).length ∧
    (align_contact_map ['A', '-'] ['A'] [] 2).isOk = true := by
  exact ⟨by decide, by decide⟩

/-- Claim C1, amended: `align_contact_map` performs no length check and
never signals a dedicated length-mismatch error.  If some column holds a
non-gap query symbol at a position at or beyond the target length, the call
fails mid-scan with an index error (from reading `target_alignment[i]`);
otherwise the scan succeeds even when the lengths differ, and when every
translated contact endpoint is a key of the correspondence the call returns
a contact map. -/
theorem align_no_length_check (q t : List Char) (c : List (Nat × Nat)) (r : Int) :
    ((∃ i ch, q.get? i = some ch ∧ ch ≠ '-' ∧ t.length ≤ i) →
      align_contact_map q t c r = .error .indexError) ∧
    (∀ st, scanAux r q t initState = .ok st →
      (∀ p ∈ c, (lookupIdx st.corr p.1).isSome ∧ (lookupIdx st.corr p.2).isSome) →
      (align_contact_map q t c r).isOk = true) := by
  constructor
  · rintro ⟨i, ch, hget, hch, hlen⟩
    have hs := scanAux_oob_err r q t initState i ch hget hch hlen
    unfold align_contact_map
    simp only [hs]
  · intro st hs hlk
    obtain ⟨tr, htr⟩ := translateContacts_isOk st.corr c hlk
    obtain ⟨m, hm, _⟩ := align_success q t c r st tr hs htr
    rw [hm]
    rfl

theorem align_no_length_check_witness :
    align_contact_map ['A'] [] [] 2 = .error .indexError :=
  (align_no_length_check ['A'] [] [] 2).1 ⟨0, 'A', rfl, by decide, by decide⟩

/-- Claim C2, counterexample: on the doubly-gapped one-column alignment
(query "-", target "-") the scan advances `target_index` to 1 and writes
the correspondence entry `(0, -1)`, contradicting the claim that neither
index advances and no correspondence entry is written. -/
theorem scan_double_gap_cex :
    scanAux 2 ['-'] ['-'] initState =
      .ok { sparse := [], targetIndex := 1, queryIndex := 0, corr := [(0, -1)] } := by
  rfl

/-- Claim C2, amended: a column whose query symbol is the gap takes the
query-gap branch no matter what the target symbol is; for a doubly-gapped
column the scan records `correspondence[targetIndex] = -1` and increments
`targetIndex`, leaving `queryIndex` and the collected contacts unchanged. -/
theorem scanStep_double_gap (r : Int) (st : ScanState) :
    scanStep r st '-' (some '-') =
      .ok { st with corr := (st.targetIndex, -1) :: st.corr,
                    targetIndex := st.targetIndex + 1 } :=
  scanStep_gap r st (some '-')

/-- Claim C3, counterexample: with the identity one-column alignment and
the out-of-domain contact `(5, 5)`, the translation pass raises a key
error instead of dropping the pair, so the call fails rather than
returning a contact map. -/
theorem align_missing_key_cex :
    align_contact_map ['A'] ['A'] [(5, 5)] 2 = .error .keyError := by
  rfl

/-- Claim C3, amended: during translation a pair both of whose endpoints
are keys of the correspondence is kept, and the call returns a map after
dropping the pairs with an unmapped (`-1`) endpoint; but a pair with an
endpoint absent from the correspondence domain raises a key error and the
call fails. -/
theorem align_unmapped_dropped_or_keyError (q t : List Char) (c : List (Nat × Nat)) (r : Int)
    (st : ScanState) (hs : scanAux r q t initState = .ok st) :
    ((∃ p ∈ c, lookupIdx st.corr p.1 = none ∨ lookupIdx st.corr p.2 = none) →
      align_contact_map q t c r = .error .keyError) ∧
    ((∀ p ∈ c, (lookupIdx st.corr p.1).isSome ∧ (lookupIdx st.corr p.2).isSome) →
      (align_contact_map q t c r).isOk = true ∧
      ∀ tr, translateContacts st.corr c = .ok tr →
        ∀ x ∈ tr.filter (fun p => p.1 != -1 && p.2 != -1), x.1 ≠ -1 ∧ x.2 ≠ -1) := by
  constructor
  · intro hbad
    have htr := translateContacts_err st.corr c hbad
    unfold align_contact_map
    simp only [hs, htr]
  · intro hlk
    obtain ⟨tr, htr⟩ := translateContacts_isOk st.corr c hlk
    obtain ⟨m, hm, _⟩ := align_success q t c r st tr hs htr
    refine ⟨by rw [hm]; rfl, ?_⟩
    intro tr2 htr2 x hx
    obtain ⟨_, hpred⟩ := List.mem_filter.mp hx
    simp only [Bool.and_eq_true, bne_iff_ne] at hpred
    exact hpred

theorem align_unmapped_dropped_witness :
    (align_contact_map ['A'] ['A'] [(0, 0)] 2).isOk = true :=
  ((align_unmapped_dropped_or_keyError ['A'] ['A'] [(0, 0)] 2
    { sparse := [], targetIndex := 1, queryIndex := 1, corr := [(0, 0)] } rfl).2
    (by decide)).1

/-- Claim C4: every contact map returned by `align_contact_map` is
symmetric; on failed calls both cells are absent, so the cell projection
is symmetric for every input. -/
theorem align_symm (q t : List Char) (c : List (Nat × Nat)) (r : Int) (i j : Nat) :
    alignCell q t c r i j = alignCell q t c r j i := by
  unfold alignCell
  cases halign : align_contact_map q t c r with
  | error e => rfl
  | ok res =>
    obtain ⟨N, m⟩ := res
    obtain ⟨st, tr, hs, ht, hf, hN⟩ := align_eq_ok q t c r N m halign
    have hij := fillContacts_char st.queryIndex (mergedContacts st tr) (initDiag st.queryIndex) m hf i j
    have hji := fillContacts_char st.queryIndex (mergedContacts st tr) (initDiag st.queryIndex) m hf j i
    have hiff : m i j = true ↔ m j i = true := by
      rw [hij, hji]
      constructor
      · rintro (hd | ⟨p, hp, hrange, hcond⟩)
        · left
          rw [initDiag_true_iff] at hd ⊢
          omega
        · exact Or.inr ⟨p, hp, hrange, hcond.symm⟩
      · rintro (hd | ⟨p, hp, hrange, hcond⟩)
        · left
          rw [initDiag_true_iff] at hd ⊢
          omega
        · exact Or.inr ⟨p, hp, hrange, hcond.symm⟩
    have hb : m i j = m j i := by
      cases hmi : m i j with
      | true => exact (hiff.mp hmi).symm
      | false =>
        cases hmj : m j i with
        | true => exact absurd (hmi ▸ hiff.mpr hmj) (by decide)
        | false => rfl
    show some (m i j) = some (m j i)
    rw [hb]

/-- Claim C5: whenever `align_contact_map` returns a matrix, its dimension
equals the number of non-gap symbols in the query alignment, and every
diagonal cell within range is set to contact. -/
theorem align_dim_diag (q t : List Char) (c : List (Nat × Nat)) (r : Int) (N : Nat)
    (h : alignDim q t c r = some N) :
    N = nonGapCount q ∧ ∀ i, i < N → alignCell q t c r i i = some true := by
  unfold alignDim at h
  cases halign : align_contact_map q t c r with
  | error e => simp only [halign] at h; cases h
  | ok res =>
    obtain ⟨N2, m⟩ := res
    simp only [halign, Option.some.injEq] at h
    subst h
    obtain ⟨st, tr, hs, ht, hf, hN⟩ := align_eq_ok q t c r N2 m halign
    have hcount := scanAux_count r q t initState st hs
    constructor
    · rw [hN, hcount]
      simp [initState]
    · intro i hi
      unfold alignCell
      simp only [halign, Option.some.injEq]
      have hchar := fillContacts_char st.queryIndex (mergedContacts st tr)
        (initDiag st.queryIndex) m hf i i
      rw [hchar]
      left
      rw [initDiag_true_iff]
      omega

theorem align_dim_diag_witness : alignCell ['A', 'B'] ['A', 'B'] [] 2 1 1 = some true :=
  (align_dim_diag ['A', 'B'] ['A', 'B'] [] 2 2 (by decide)).2 1 (by decide)

/-- Claim C6: at a column whose query symbol is a residue and whose target
symbol is the gap, the scan appends the generated contacts
`(queryIndex + j, queryIndex)` and `(queryIndex - j, queryIndex)` for every
`j` from 1 to the radius inclusive, increments `queryIndex` and leaves
`targetIndex` and the correspondence unchanged; in particular for
query "ABCDE", target "AB-DE" and radius 1, the output map contains the
contacts (1,2)/(2,1) and (3,2)/(2,3). -/
theorem scan_target_gap_generated (r : Int) (st : ScanState) (qc : Char) (hq : qc ≠ '-') :
    scanStep r st qc (some '-') =
      .ok { st with sparse := st.sparse ++ genContacts r st.queryIndex,
                    queryIndex := st.queryIndex + 1 } ∧
    (∀ j : Nat, 1 ≤ j → (j : Int) ≤ r →
      ((st.queryIndex : Int) + (j : Int), (st.queryIndex : Int)) ∈ genContacts r st.queryIndex ∧
      ((st.queryIndex : Int) - (j : Int), (st.queryIndex : Int)) ∈ genContacts r st.queryIndex) ∧
    (alignCell ['A', 'B', 'C', 'D', 'E'] ['A', 'B', '-', 'D', 'E'] [] 1 1 2 = some true ∧
     alignCell ['A', 'B', 'C', 'D', 'E'] ['A', 'B', '-', 'D', 'E'] [] 1 2 1 = some true ∧
     alignCell ['A', 'B', 'C', 'D', 'E'] ['A', 'B', '-', 'D', 'E'] [] 1 3 2 = some true ∧
     alignCell ['A', 'B', 'C', 'D', 'E'] ['A', 'B', '-', 'D', 'E'] [] 1 2 3 = some true) := by
  refine ⟨scanStep_tgap r st qc hq, ?_, by decide, by decide, by decide, by decide⟩
  intro j h1 h2
  have hj : j ≤ r.toNat := by omega
  exact genContactsAux_mem st.queryIndex r.toNat j h1 hj

theorem scan_target_gap_generated_witness :
    ((1 : Int) + (1 : Int), (1 : Int)) ∈ genContacts 1 1 :=
  (((scan_target_gap_generated 1
    { sparse := [], targetIndex := 1, queryIndex := 1, corr := [(0, 0)] }
    'C' (by decide)).2.1) 1 (by decide) (by decide)).1

/-- Claim C8: during assembly, a merged contact whose first endpoint is
negative or at least the output dimension is silently skipped (the
assembly equation drops it, with no error and no cell written), and for
every successful scan and translation the second endpoint of every merged
contact lies in `[0, N_q)` by construction, so the whole assembly completes
without any out-of-range matrix access. -/
theorem align_bounds_safety (q t : List Char) (c : List (Nat × Nat)) (r : Int) :
    (∀ (N : Nat) (p : Int × Int) (rest : List (Int × Int)) (m : Nat → Nat → Bool),
      p.1 < 0 ∨ (N : Int) ≤ p.1 → fillContacts N (p :: rest) m = fillContacts N rest m) ∧
    (∀ st tr, scanAux r q t initState = .ok st → translateContacts st.corr c = .ok tr →
      (∀ p ∈ mergedContacts st tr, 0 ≤ p.2 ∧ p.2 < (st.queryIndex : Int)) ∧
      (fillContacts st.queryIndex (mergedContacts st tr) (initDiag st.queryIndex)).isOk = true) := by
  constructor
  · exact fun N p rest m h => fillContacts_skip N p rest m h
  · intro st tr hs ht
    have hb := mergedContacts_snd_bound q t c r st tr hs ht
    refine ⟨hb, ?_⟩
    obtain ⟨m2, hm2⟩ := fillContacts_isOk st.queryIndex (mergedContacts st tr)
      (initDiag st.queryIndex) hb
    rw [hm2]
    rfl

theorem align_bounds_safety_witness :
    fillContacts 1 [((5 : Int), (0 : Int))] (initDiag 1) = fillContacts 1 [] (initDiag 1) ∧
    (fillContacts 1 (mergedContacts ⟨[], 1, 1, [(0, 0)]⟩ []) (initDiag 1)).isOk = true :=
  ⟨(align_bounds_safety ['A'] ['A'] [] 2).1 1 (5, 0) [] (initDiag 1) (Or.inr (by decide)),
   ((align_bounds_safety ['A'] ['A'] [] 2).2 ⟨[], 1, 1, [(0, 0)]⟩ [] rfl rfl).2⟩

/-- Claim C9, counterexample: on a structure yielding zero residues the
contact-map builder raises an error (the pairwise-distance routine rejects
the empty, 1-dimensional coordinate array) instead of returning a
zero-size contact graph. -/
theorem calculate_empty_cex :
    calculate_contact_map [] 1000 6 CMode.matrix = .error .valueError := rfl

/-- Claim C9, amended: for a structure yielding zero residues,
`calculate_contact_map` raises a ValueError for every maximum length,
threshold and output mode; it does not return a zero-size contact graph. -/
theorem calculate_empty_raises (maxLen : Nat) (threshold : ℚ) (mode : CMode) :
    calculate_contact_map [] maxLen threshold mode = .error .valueError := by
  unfold calculate_contact_map
  simp [List.take_nil]

/-- Claim C10: `align_contact_map` is monotone in the generated-contact
radius: for radii `r ≤ r2` the two calls agree on success and dimension,
and every cell set to contact at radius `r` is also set at radius `r2`. -/
theorem align_radius_mono (q t : List Char) (c : List (Nat × Nat)) (r r2 : Int) (hr : r ≤ r2) :
    alignDim q t c r = alignDim q t c r2 ∧
    ∀ i j : Nat, alignCell q t c r i j = some true → alignCell q t c r2 i j = some true := by
  have hrel0 : SRel initState initState := ⟨fun p hp => hp, rfl, rfl, rfl⟩
  rcases scanAux_mono r r2 hr q t initState initState hrel0 with
    ⟨u, u2, h1, h2, hrel⟩ | ⟨e, h1, h2⟩
  · obtain ⟨husp, huti, huqi, huco⟩ := hrel
    cases ht : translateContacts u.corr c with
    | error e =>
      have ht2 : translateContacts u2.corr c = .error e := by rw [huco]; exact ht
      constructor
      · unfold alignDim align_contact_map
        simp only [h1, h2, ht, ht2]
      · intro i j hcell
        unfold alignCell align_contact_map at hcell
        simp only [h1, ht] at hcell
        cases hcell
    | ok tr =>
      have ht2 : translateContacts u2.corr c = .ok tr := by rw [huco]; exact ht
      obtain ⟨m, hm, hfm⟩ := align_success q t c r u tr h1 ht
      obtain ⟨m2, hm2, hfm2⟩ := align_success q t c r2 u2 tr h2 ht2
      constructor
      · unfold alignDim
        simp only [hm, hm2, huqi]
      · intro i j hcell
        unfold alignCell at hcell ⊢
        simp only [hm, Option.some.injEq] at hcell
        simp only [hm2, Option.some.injEq]
        have hchar := fillContacts_char u.queryIndex (mergedContacts u tr)
          (initDiag u.queryIndex) m hfm i j
        have hchar2 := fillContacts_char u2.queryIndex (mergedContacts u2 tr)
          (initDiag u2.queryIndex) m2 hfm2 i j
        rw [hchar] at hcell
        rw [hchar2, huqi]
        rcases hcell with hd | ⟨p, hp, hrange, hcond⟩
        · exact Or.inl hd
        · refine Or.inr ⟨p, ?_, hrange, hcond⟩
          unfold mergedContacts at hp ⊢
          rcases List.mem_append.mp hp with hp | hp
          · exact List.mem_append_left _ (husp p hp)
          · exact List.mem_append_right _ hp
  · constructor
    · unfold alignDim align_contact_map
      simp only [h1, h2]
    · intro i j hcell
      unfold alignCell align_contact_map at hcell
      simp only [h1] at hcell
      cases hcell

theorem align_radius_mono_witness :
    alignDim ['A', 'B', 'C'] ['A', '-', 'C'] [] 1 = alignDim ['A', 'B', 'C'] ['A', '-', 'C'] [] 2 :=
  (align_radius_mono ['A', 'B', 'C'] ['A', '-', 'C'] [] 1 2 (by decide)).1

/-- Claim C7: for an identity alignment with no gap symbols and sparse
contacts within `[0, N)`, the projected map equals the dense symmetric
form of the source contact graph with the diagonal set, exactly: the
dimension is the alignment length, and a cell `(i, j)` is a contact iff
`i = j` or `(i, j)` or `(j, i)` is a source contact. -/
theorem align_identity (q : List Char) (c : List (Nat × Nat)) (r : Int)
    (hng : ∀ ch ∈ q, ch ≠ '-') (hc : ∀ p ∈ c, p.1 < q.length ∧ p.2 < q.length) :
    alignDim q q c r = some q.length ∧
    ∀ i j : Nat, i < q.length → j < q.length →
      (alignCell q q c r i j = some true ↔ i = j ∨ (i, j) ∈ c ∨ (j, i) ∈ c) := by
  obtain ⟨st, hrun, hsp, hqi, hlk⟩ := scanAux_id r q hng initState
  have hqi2 : st.queryIndex = q.length := by
    rw [hqi]
    simp [initState]
  have hlk2 : ∀ k, lookupIdx st.corr k = if k < q.length then some (k : Int) else none := by
    intro k
    rw [hlk k]
    have h0 : initState.targetIndex = 0 := rfl
    have h1 : initState.queryIndex = 0 := rfl
    rw [h0, h1]
    by_cases hk : k < q.length
    · rw [if_pos ⟨Nat.zero_le k, by omega⟩, if_pos hk]
      congr 1
    · rw [if_neg (by omega), if_neg hk]
      rfl
  have hlkc : ∀ p ∈ c, lookupIdx st.corr p.1 = some (p.1 : Int) ∧
      lookupIdx st.corr p.2 = some (p.2 : Int) := by
    intro p hp
    constructor
    · rw [hlk2 p.1, if_pos (hc p hp).1]
    · rw [hlk2 p.2, if_pos (hc p hp).2]
  have htr := translateContacts_id st.corr c hlkc
  obtain ⟨m, hm, hfm⟩ := align_success q q c r st _ hrun htr
  have hsp2 : st.sparse = [] := by rw [hsp]; rfl
  have hfilter : (c.map (fun p => ((p.1 : Int), (p.2 : Int)))).filter
      (fun p => p.1 != -1 && p.2 != -1) = c.map (fun p => ((p.1 : Int), (p.2 : Int))) := by
    apply List.filter_eq_self.mpr
    intro x hx
    obtain ⟨p, hp, rfl⟩ := List.mem_map.mp hx
    simp only [Bool.and_eq_true, bne_iff_ne]
    constructor <;> omega
  have hmerged : mergedContacts st (c.map (fun p => ((p.1 : Int), (p.2 : Int)))) =
      c.map (fun p => ((p.1 : Int), (p.2 : Int))) := by
    unfold mergedContacts
    rw [hsp2, hfilter]
    rfl
  constructor
  · unfold alignDim
    simp only [hm, hqi2]
  · intro i j hi hj
    unfold alignCell
    simp only [hm, Option.some.injEq]
    have hchar := fillContacts_char st.queryIndex _ (initDiag st.queryIndex) m hfm i j
    rw [hchar, hmerged]
    constructor
    · rintro (hd | ⟨x, hx, hrange, hcond⟩)
      · rw [initDiag_true_iff] at hd
        exact Or.inl hd.1
      · obtain ⟨p, hp, rfl⟩ := List.mem_map.mp hx
        rcases hcond with ⟨he1, he2⟩ | ⟨he1, he2⟩
        · refine Or.inr (Or.inl ?_)
          have hp1 : p.1 = i := Nat.cast_inj.mp (show (p.1 : Int) = (i : Int) from he1)
          have hp2 : p.2 = j := Nat.cast_inj.mp (show (p.2 : Int) = (j : Int) from he2)
          have hpe : p = (i, j) := Prod.ext_iff.mpr ⟨hp1, hp2⟩
          rw [← hpe]
          exact hp
        · refine Or.inr (Or.inr ?_)
          have hp1 : p.1 = j := Nat.cast_inj.mp (show (p.1 : Int) = (j : Int) from he1)
          have hp2 : p.2 = i := Nat.cast_inj.mp (show (p.2 : Int) = (i : Int) from he2)
          have hpe : p = (j, i) := Prod.ext_iff.mpr ⟨hp1, hp2⟩
          rw [← hpe]
          exact hp
    · rintro (rfl | hmem | hmem)
      · left
        rw [initDiag_true_iff]
        exact ⟨rfl, by omega⟩
      · right
        refine ⟨((i : Int), (j : Int)), List.mem_map.mpr ⟨(i, j), hmem, rfl⟩,
          ⟨by omega, ?_⟩, Or.inl ⟨rfl, rfl⟩⟩
        have := (hc (i, j) hmem).1
        omega
      · right
        refine ⟨((j : Int), (i : Int)), List.mem_map.mpr ⟨(j, i), hmem, rfl⟩,
          ⟨by omega, ?_⟩, Or.inr ⟨rfl, rfl⟩⟩
        have := (hc (j, i) hmem).1
        omega

theorem align_identity_witness :
    alignDim ['A', 'B', 'C', 'D', 'E'] ['A', 'B', 'C', 'D', 'E'] [(0, 1), (2, 4)] 2 = some 5 :=
  (align_identity ['A', 'B', 'C', 'D', 'E'] [(0, 1), (2, 4)] 2 (by decide) (by decide)).1
